import Mathlib

/-!
Verification of the `rest_client` package (`client.go`) of the circleci
context CLI client.

The Go source is shallowly embedded below.  Pure structure is translated
directly; the stdlib collaborators (`net/url`, `net/http`, `encoding/json`
and the HTTP transport) are modelled as follows:

* `net/url` — a faithful executable model of `url.Parse`,
  `URL.ResolveReference`, `URL.String`, `url.QueryEscape` and
  `url.Values.Encode` for the URL shapes this client produces
  (scheme://host/path?query, no userinfo / opaque part / percent-escaped
  paths, no "." or ".." path segments; theorems that depend on parsing
  only ever apply the model inside that region).  Go's `url.Parse`
  rejects any URL containing an ASCII control byte as its very first
  check; the model keeps that failure mode.
* `encoding/json` — a body is modelled by its two decode outcomes
  (`json.Unmarshal` into `ErrorResponse`, and into
  `listContextsResponse`), each `Option`-valued: `none` means
  `Unmarshal` returns an error.
* the transport (`http.Client.Do` + `ioutil.ReadAll`) — an oracle
  function from the built request to a transport outcome.

Strings are handled at the `List Char` level where parsing proofs need
structure.  Go code that can dereference a nil pointer is modelled with
an explicit `panicked` outcome.
-/

set_option autoImplicit false

namespace RestClient

/-- Error taxonomy of spec §7 for the Go `error` values the client
returns.  `fuelExhausted` is a modelling artifact: the Go page-walk
recursion is bounded only by the server's token chain, so the embedding
takes a fuel bound; every theorem supplies enough fuel for it to be
unreachable. -/
inductive RClientError where
  | invalidURL
  | transportError
  | readError
  | jsonDecodeError
  | remoteError (msg : String)
  | notFound (name : String)
  | fuelExhausted
  deriving DecidableEq, Repr

/-- Result of running a piece of the Go client: a value, a returned Go
`error` (collapsed to the spec's error taxonomy), or a runtime panic
(nil-pointer dereference). -/
inductive Outcome (α : Type) where
  | ok (a : α)
  | err (e : RClientError)
  | panicked
  deriving DecidableEq, Repr

/-- `type Context struct` of client.go.  `CreatedAt time.Time` is kept as
its wire string; no claim inspects it. -/
structure Context where
  createdAt : String
  id : String
  name : String
  deriving DecidableEq, Repr

/-- `type ErrorResponse struct { Message *string }` of client.go. -/
structure ErrorResponse where
  message : Option String
  deriving DecidableEq, Repr

/-- `type listContextsParams struct` of client.go: four optional
(`*string`) fields. -/
structure ListContextsParams where
  ownerID : Option String
  ownerSlug : Option String
  ownerType : Option String
  pageToken : Option String
  deriving DecidableEq, Repr

/-- `type listContextsResponse struct` of client.go (the `client` and
`params` fields are set at construction but never read afterwards in the
source, so they are omitted from the model). -/
structure ListContextsResponse where
  items : List Context
  nextPageToken : Option String
  deriving DecidableEq, Repr

/-- A response body, modelled by what `json.Unmarshal` does with it:
decoding into `ErrorResponse` and into `listContextsResponse`; `none`
means `Unmarshal` returns an error for that target type. -/
structure Body where
  asError : Option ErrorResponse
  asPage : Option ListContextsResponse
  deriving DecidableEq, Repr

/-- `type Client struct` of client.go.  The `*http.Client` handle is not
stored: the transport is passed to each operation as an oracle
(`Request → DoResult`), which models the single immutable handle. -/
structure Client where
  token : String
  server : String
  deriving DecidableEq, Repr

/-- An `*http.Request` as this client builds it: method, URL string and
the headers added by `newHTTPRequest`.  (Go canonicalizes header-name
case on `Header.Add`; the model keeps the names as written, which is the
same header up to the case-insensitivity of HTTP.) -/
structure Request where
  method : String
  url : String
  headers : List (String × String)
  deriving DecidableEq, Repr

/-- Outcome of `c.client.Do(req)` followed by `ioutil.ReadAll(resp.Body)`:
transport failure, body-read failure, or a status code with a body. -/
inductive DoResult where
  | fail
  | badRead (status : Nat)
  | resp (status : Nat) (body : Body)
  deriving DecidableEq, Repr

/-! ## Model of the `net/url` collaborator -/

/-- Go `net/url` rejects URLs containing an ASCII control byte
(`stringContainsCTLByte`, the first check in `url.Parse`). -/
def isCTLByte (c : Char) : Bool :=
  c.toNat < 0x20 || c.toNat == 0x7f

def containsCTL (s : List Char) : Bool :=
  s.any isCTLByte

/-- The components of a parsed `url.URL` that this client exercises. -/
structure GoURL where
  scheme : List Char
  host : List Char
  path : List Char
  query : List Char
  forceQuery : Bool
  fragment : List Char
  deriving DecidableEq, Repr

inductive URLError where
  | controlByte
  | missingScheme
  deriving DecidableEq, Repr

/-- Split a list at the first occurrence of `sep`; the second component
is `none` when `sep` does not occur. -/
def splitFirst (sep : Char) : List Char → List Char × Option (List Char)
  | [] => ([], none)
  | c :: rest =>
    if c = sep then ([], some rest)
    else
      let r := splitFirst sep rest
      (c :: r.1, r.2)

def isSchemeAlpha (c : Char) : Bool :=
  ('a' ≤ c && c ≤ 'z') || ('A' ≤ c && c ≤ 'Z')

def isSchemeDigitOrSym (c : Char) : Bool :=
  ('0' ≤ c && c ≤ '9') || c = '+' || c = '-' || c = '.'

/-- Model of `net/url.getScheme`: scan for `scheme:`; a non-scheme
character before any `:` means the whole string is scheme-less; a
leading `:` is an error. -/
def getSchemeAux (orig acc : List Char) : List Char → Except URLError (List Char × List Char)
  | [] => .ok ([], orig)
  | c :: rest =>
    if isSchemeAlpha c then getSchemeAux orig (acc ++ [c]) rest
    else if isSchemeDigitOrSym c then
      if acc = [] then .ok ([], orig) else getSchemeAux orig (acc ++ [c]) rest
    else if c = ':' then
      if acc = [] then .error .missingScheme else .ok (acc, rest)
    else .ok ([], orig)

def getScheme (s : List Char) : Except URLError (List Char × List Char) :=
  getSchemeAux s [] s

/-- Characters terminating the authority component. -/
def endsAuthority (c : Char) : Bool :=
  c = '/' || c = '?' || c = '#'

/-- Split `s` into the authority (up to the first `/`, `?` or `#`) and
the rest (which keeps its leading terminator). -/
def splitAuthority : List Char → List Char × List Char
  | [] => ([], [])
  | c :: rest =>
    if endsAuthority c then ([], c :: rest)
    else
      let r := splitAuthority rest
      (c :: r.1, r.2)

/-- Model of `url.Parse` for the shapes this client produces: CTL-byte
check, fragment split at the first `#`, scheme extraction, `//authority`
split, query split at the first `?`. -/
def urlParse (s : List Char) : Except URLError GoURL :=
  if containsCTL s then .error .controlByte
  else
    let frag := splitFirst '#' s
    match getScheme frag.1 with
    | .error e => .error e
    | .ok (scheme, schemeRest) =>
      let hostRest :=
        match schemeRest with
        | '/' :: '/' :: r => splitAuthority r
        | other => ([], other)
      let q := splitFirst '?' hostRest.2
      .ok { scheme := scheme
            host := hostRest.1
            path := q.1
            query := (q.2).getD []
            forceQuery := q.2 == some []
            fragment := (frag.2).getD [] }

/-- The part of `base` up to and including its last `/` (all of it when
it ends in `/`, empty when it has no `/`): Go's
`base[:strings.LastIndex(base, "/")+1]`. -/
def upToLastSlash (base : List Char) : List Char :=
  ((base.reverse).dropWhile (fun c => ¬ c = '/')).reverse

/-- A path with no `.` or `..` segment: the region where the
`resolvePathGo` model below agrees with Go's `resolvePath`, which
additionally normalizes dot segments. -/
def dotFreePath (p : List Char) : Bool :=
  (p.splitOn '/').all (fun seg => ¬ (seg = ['.'] ∨ seg = ['.', '.']))

/-- Model of `net/url.resolvePath` restricted to dot-free paths: merge
the reference into the base directory.  (Go additionally normalizes `.`
and `..` segments and forces a leading `/`; the theorems below only
apply this inside the dot-free, absolute-path region where that
normalization is the identity.) -/
def resolvePathGo (base ref : List Char) : List Char :=
  match ref with
  | [] => base
  | c :: _ => if c = '/' then ref else upToLastSlash base ++ ref

/-- Model of `URL.ResolveReference` (no userinfo / opaque part). -/
def resolveReference (base ref : GoURL) : GoURL :=
  if ref.scheme ≠ [] ∨ ref.host ≠ [] then
    { ref with scheme := if ref.scheme = [] then base.scheme else ref.scheme
               path := resolvePathGo ref.path [] }
  else if ref.path = [] ∧ ref.forceQuery = false ∧ ref.query = [] then
    { base with query := base.query
                fragment := if ref.fragment = [] then base.fragment else ref.fragment }
  else
    { ref with scheme := base.scheme
               host := base.host
               path := resolvePathGo base.path ref.path }

/-- Model of `URL.Parse` (parse a reference, then resolve it against the
receiver). -/
def urlParseRef (base : GoURL) (ref : List Char) : Except URLError GoURL :=
  match urlParse ref with
  | .error e => .error e
  | .ok refURL => .ok (resolveReference base refURL)

/-- Model of `URL.String` for the region in play (authority present iff
`host` is nonempty; no userinfo / opaque part). -/
def urlToString (u : GoURL) : List Char :=
  (if u.scheme = [] then [] else u.scheme ++ [':']) ++
  (if u.host = [] then [] else '/' :: '/' :: u.host) ++
  u.path ++
  (if u.forceQuery || u.query ≠ [] then '?' :: u.query else []) ++
  (if u.fragment = [] then [] else '#' :: u.fragment)

/-! ## Model of `url.QueryEscape` and `url.Values.Encode` -/

/-- UTF-8 encoding of one character, as the bytes Go ranges over when
escaping a string. -/
def charUtf8 (c : Char) : List Nat :=
  let n := c.toNat
  if n < 0x80 then [n]
  else if n < 0x800 then [0xC0 + n / 64, 0x80 + n % 64]
  else if n < 0x10000 then
    [0xE0 + n / 4096, 0x80 + (n / 64) % 64, 0x80 + n % 64]
  else
    [0xF0 + n / 262144, 0x80 + (n / 4096) % 64, 0x80 + (n / 64) % 64, 0x80 + n % 64]

def utf8Bytes (s : String) : List Nat :=
  s.data.flatMap charUtf8

/-- Go `shouldEscape(c, encodeQueryComponent)`: everything but the RFC
3986 unreserved characters is escaped in a query component. -/
def queryShouldEscape (b : Nat) : Bool :=
  ¬ ((0x41 ≤ b && b ≤ 0x5A) || (0x61 ≤ b && b ≤ 0x7A) || (0x30 ≤ b && b ≤ 0x39) ||
     b == 0x2D || b == 0x5F || b == 0x2E || b == 0x7E)

def upperHexDigit (n : Nat) : Char :=
  if n < 10 then Char.ofNat (0x30 + n) else Char.ofNat (0x41 + (n - 10))

/-- One byte of Go `url.escape` output in `encodeQueryComponent` mode:
space becomes `+`, unreserved bytes stay, everything else becomes
`%XX` with uppercase hex. -/
def escapeQueryByte (b : Nat) : List Char :=
  if b = 0x20 then ['+']
  else if queryShouldEscape b then ['%', upperHexDigit (b / 16), upperHexDigit (b % 16)]
  else [Char.ofNat b]

/-- Model of `url.QueryEscape`. -/
def queryEscape (s : String) : String :=
  ⟨(utf8Bytes s).flatMap escapeQueryByte⟩

/-- Lexicographic comparison of character lists. -/
def charListLE : List Char → List Char → Bool
  | [], _ => true
  | _ :: _, [] => false
  | a :: as, b :: bs => if a = b then charListLE as bs else decide (a < b)

/-- Key order used by `url.Values.Encode` (`sort.Strings`): bytewise
lexicographic comparison, which for the ASCII keys in play coincides
with codepoint-lexicographic order on the characters. -/
def keyLE (a b : String) : Bool :=
  charListLE a.data b.data

def insertByKey (kv : String × String) : List (String × String) → List (String × String)
  | [] => [kv]
  | kv2 :: rest =>
    if keyLE kv.1 kv2.1 then kv :: kv2 :: rest
    else kv2 :: insertByKey kv rest

/-- The sort `url.Values.Encode` performs on its keys (here each key
carries its single value; all keys in play are distinct). -/
def sortByKey : List (String × String) → List (String × String)
  | [] => []
  | kv :: rest => insertByKey kv (sortByKey rest)

/-- Model of `url.Values.Encode`: sort by key, render each pair as
`escape(k)=escape(v)`, join with `&`.  (Go separates with `&` whenever
the buffer is nonempty, and every written pair is nonempty, so this is
the `&`-join of the rendered pairs.) -/
def valuesEncode (vals : List (String × String)) : String :=
  "&".intercalate ((sortByKey vals).map (fun kv => queryEscape kv.1 ++ "=" ++ queryEscape kv.2))

/-! ## The Go client: request builders (client.go lines 182-230) -/

/-- `func toSlug(org, vcs string) string` of client.go. -/
def toSlug (org vcs : String) : String :=
  vcs ++ "/" ++ org

/-- `func (c *Client) newHTTPRequest` of client.go: `http.NewRequest`
(which fails when its URL does not parse), then the two `Header.Add`
calls. -/
def newHTTPRequest (c : Client) (method url : String) : Outcome Request :=
  match urlParse url.data with
  | .error _ => .err .invalidURL
  | .ok _ =>
    .ok { method := method
          url := url
          headers := [("circle-token", c.token), ("Accept", "application/json")] }

/-- `func (c *Client) newDeleteContextRequest` of client.go.  The source
assigns the error of the second `Parse` but never checks it: when that
parse fails, `queryURL` is nil and `queryURL.String()` panics. -/
def newDeleteContextRequest (c : Client) (contextID : String) : Outcome Request :=
  match urlParse c.server.data with
  | .error _ => .err .invalidURL
  | .ok queryURL =>
    match urlParseRef queryURL ("context/" ++ contextID).data with
    | .error _ => .panicked
    | .ok u => newHTTPRequest c "DELETE" ⟨urlToString u⟩

/-- The `url.Values` built by `newListContextsRequest` (client.go lines
203-215): one `Add` per present field, in source order. -/
def listContextsURLValues (params : ListContextsParams) : List (String × String) :=
  (match params.ownerID with
   | some v => [("owner-id", v)]
   | none => []) ++
  (match params.ownerSlug with
   | some v => [("owner-slug", v)]
   | none => []) ++
  (match params.ownerType with
   | some v => [("owner-type", v)]
   | none => []) ++
  (match params.pageToken with
   | some v => [("page-token", v)]
   | none => [])

/-- `func (c *Client) newListContextsRequest` of client.go. -/
def newListContextsRequest (c : Client) (params : ListContextsParams) : Outcome Request :=
  match urlParse c.server.data with
  | .error _ => .err .invalidURL
  | .ok queryURL =>
    match urlParseRef queryURL "context".data with
    | .error _ => .err .invalidURL
    | .ok u =>
      let u := { u with query := (valuesEncode (listContextsURLValues params)).data
                        forceQuery := false }
      newHTTPRequest c "GET" ⟨urlToString u⟩

/-! ## The Go client: operations (client.go lines 60-180) -/

/-- `func (c *Client) listContexts` of client.go: build the request, run
it through the transport oracle, read the body, and decode.  A non-200
status decodes the body as `ErrorResponse`; a nil `Message` makes the
source dereference a nil pointer (`errors.New(*dest.Message)`). -/
def listContexts (c : Client) (doReq : Request → DoResult) (params : ListContextsParams) :
    Outcome ListContextsResponse :=
  match newListContextsRequest c params with
  | .err e => .err e
  | .panicked => .panicked
  | .ok req =>
    match doReq req with
    | .fail => .err .transportError
    | .badRead _ => .err .readError
    | .resp status body =>
      if status ≠ 200 then
        match body.asError with
        | none => .err .jsonDecodeError
        | some dest =>
          match dest.message with
          | none => .panicked
          | some m => .err (.remoteError m)
      else
        match body.asPage with
        | none => .err .jsonDecodeError
        | some dest => .ok dest

/-- `func (c *Client) DeleteContext` of client.go: same shape as
`listContexts`, but a 200 status returns plain success. -/
def DeleteContext (c : Client) (doReq : Request → DoResult) (contextID : String) :
    Outcome Unit :=
  match newDeleteContextRequest c contextID with
  | .err e => .err e
  | .panicked => .panicked
  | .ok req =>
    match doReq req with
    | .fail => .err .transportError
    | .badRead _ => .err .readError
    | .resp status body =>
      if status ≠ 200 then
        match body.asError with
        | none => .err .jsonDecodeError
        | some dest =>
          match dest.message with
          | none => .panicked
          | some m => .err (.remoteError m)
      else
        .ok ()

/-! ## The Go client: pagination engine (client.go lines 87-145)

The Go recursion is bounded only by the server's token chain, so the
embedding takes an explicit fuel argument; theorems always supply fuel
at least the chain length, making `fuelExhausted` unreachable.  The
page-fetch primitive is abstracted as `fetch`; the public operations
instantiate it with `listContexts c doReq`, exactly as the source calls
`c.listContexts(params)`. -/

/-- `func (c *Client) listAllContexts` of client.go: collect-all.  The
source mutates `params.PageToken` through the shared pointer before
recursing; the model updates the field functionally. -/
def listAllContexts (fetch : ListContextsParams → Outcome ListContextsResponse) :
    Nat → ListContextsParams → Outcome (List Context)
  | 0, _ => .err .fuelExhausted
  | fuel + 1, params =>
    match fetch params with
    | .err e => .err e
    | .panicked => .panicked
    | .ok resp =>
      match resp.nextPageToken with
      | none => .ok resp.items
      | some t =>
        match listAllContexts fetch fuel { params with pageToken := some t } with
        | .err e => .err e
        | .panicked => .panicked
        | .ok after => .ok (resp.items ++ after)

/-- `func (c *Client) getContextByName` of client.go: find-by-predicate.
The Go `for` loop returning the first item with `context.Name == name`
is `List.find?`. -/
def getContextByName (fetch : ListContextsParams → Outcome ListContextsResponse) :
    Nat → ListContextsParams → String → Outcome Context
  | 0, _, _ => .err .fuelExhausted
  | fuel + 1, params, name =>
    match fetch params with
    | .err e => .err e
    | .panicked => .panicked
    | .ok resp =>
      match resp.items.find? (fun ctx => ctx.name == name) with
      | some ctx => .ok ctx
      | none =>
        match resp.nextPageToken with
        | some t => getContextByName fetch fuel { params with pageToken := some t } name
        | none => .err (.notFound name)

/-- Instrumented shadow of `getContextByName` that also counts how many
times the page-fetch primitive runs; `getContextByNameFetches_fst`
proves it computes the same result. -/
def getContextByNameFetches (fetch : ListContextsParams → Outcome ListContextsResponse) :
    Nat → ListContextsParams → String → Outcome Context × Nat
  | 0, _, _ => (.err .fuelExhausted, 0)
  | fuel + 1, params, name =>
    match fetch params with
    | .err e => (.err e, 1)
    | .panicked => (.panicked, 1)
    | .ok resp =>
      match resp.items.find? (fun ctx => ctx.name == name) with
      | some ctx => (.ok ctx, 1)
      | none =>
        match resp.nextPageToken with
        | some t =>
          let r := getContextByNameFetches fetch fuel { params with pageToken := some t } name
          (r.1, r.2 + 1)
        | none => (.err (.notFound name), 1)

/-- `func (c *Client) Contexts` of client.go: collect-all with
`owner-slug = vcs/org`. -/
def Contexts (c : Client) (doReq : Request → DoResult) (fuel : Nat) (org vcs : String) :
    Outcome (List Context) :=
  listAllContexts (listContexts c doReq) fuel
    { ownerID := none, ownerSlug := some (toSlug org vcs), ownerType := none, pageToken := none }

/-- `func (c *Client) ContextByName` of client.go. -/
def ContextByName (c : Client) (doReq : Request → DoResult) (fuel : Nat)
    (org vcs name : String) : Outcome Context :=
  getContextByName (listContexts c doReq) fuel
    { ownerID := none, ownerSlug := some (toSlug org vcs), ownerType := none, pageToken := none }
    name

/-- `func NewClient(server, token string) *Client` of client.go: append
a trailing `/` to the server exactly when missing (`strings.HasSuffix`
on the one-byte suffix `/` is a check of the last character). -/
def NewClient (server token : String) : Client :=
  let server := if server.data.getLast? = some '/' then server else server ++ "/"
  { token := token, server := server }

/-! ## Server-behavior predicates for the pagination theorems -/

/-- `fetch` serves, from `params` on, exactly the finite chain `pages`:
each page is returned for the current params, each non-final page
carries the token under which the next one is served, and the final
page carries no token. -/
inductive FetchesChain (fetch : ListContextsParams → Outcome ListContextsResponse) :
    ListContextsParams → List ListContextsResponse → Prop where
  | last (params : ListContextsParams) (p : ListContextsResponse) :
      fetch params = .ok p → p.nextPageToken = none →
      FetchesChain fetch params [p]
  | cons (params : ListContextsParams) (p : ListContextsResponse) (t : String)
      (ps : List ListContextsResponse) :
      fetch params = .ok p → p.nextPageToken = some t →
      FetchesChain fetch { params with pageToken := some t } ps →
      FetchesChain fetch params (p :: ps)

/-- `fetch` serves, from `params` on, the chained pages `pages` and then
fails with error `e` on the next fetch. -/
inductive FetchesChainThenFails (fetch : ListContextsParams → Outcome ListContextsResponse) :
    ListContextsParams → List ListContextsResponse → RClientError → Prop where
  | here (params : ListContextsParams) (e : RClientError) :
      fetch params = .err e →
      FetchesChainThenFails fetch params [] e
  | step (params : ListContextsParams) (p : ListContextsResponse) (t : String)
      (ps : List ListContextsResponse) (e : RClientError) :
      fetch params = .ok p → p.nextPageToken = some t →
      FetchesChainThenFails fetch { params with pageToken := some t } ps e →
      FetchesChainThenFails fetch params (p :: ps) e

/-! ## Example fixtures used by witnesses -/

def cEx : Client := NewClient "https://example.com" "tok"

def params0 : ListContextsParams :=
  { ownerID := none, ownerSlug := some "gh/org", ownerType := none, pageToken := none }

def ctxA : Context := { createdAt := "2019-01-01T00:00:00Z", id := "id-a", name := "alpha" }

def ctxB : Context := { createdAt := "2019-01-02T00:00:00Z", id := "id-b", name := "dup" }

def ctxC : Context := { createdAt := "2019-01-03T00:00:00Z", id := "id-c", name := "dup" }

def page1 : ListContextsResponse := { items := [ctxA, ctxB], nextPageToken := some "t2" }

def page2 : ListContextsResponse := { items := [ctxC], nextPageToken := none }

/-- A two-page server for the traversal witnesses. -/
def fetchTwoPages : ListContextsParams → Outcome ListContextsResponse := fun p =>
  match p.pageToken with
  | none => .ok page1
  | some t => if t = "t2" then .ok page2 else .err .transportError

/-- The body whose `ErrorResponse` decode succeeds with a nil `Message`
(the JSON bodies `\x7b\x7d` and a null `message` both do this). -/
def nilMessageBody : Body :=
  { asError := some { message := none }, asPage := some { items := [], nextPageToken := none } }

/-- A transport oracle answering every request with HTTP 500 and
`nilMessageBody`. -/
def doReqNilMessage : Request → DoResult := fun _ => .resp 500 nilMessageBody

/-- The DELETE request `cEx` builds for context ID `id1`. -/
def reqDelEx : Request :=
  { method := "DELETE"
    url := "https://example.com/context/id1"
    headers := [("circle-token", "tok"), ("Accept", "application/json")] }

def doReq200 : Request → DoResult := fun _ =>
  .resp 200 { asError := none, asPage := none }

def doReq500Boom : Request → DoResult := fun _ =>
  .resp 500 { asError := some { message := some "boom" }, asPage := none }

def bodyPage1 : Body := { asError := none, asPage := some page1 }

def bodyBoom : Body := { asError := some { message := some "boom" }, asPage := none }

/-- A transport oracle that serves `page1` for the first listing request
of `cEx` and fails every other request with HTTP 500 and message
`boom`: a concrete chain whose second fetch fails. -/
def doReqPageThenBoom : Request → DoResult := fun req =>
  if req.url = "https://example.com/context?owner-slug=gh%2Forg" then .resp 200 bodyPage1
  else .resp 500 bodyBoom

/-- The GET listing request `cEx` builds for `params0`. -/
def reqListEx : Request :=
  { method := "GET"
    url := "https://example.com/context?owner-slug=gh%2Forg"
    headers := [("circle-token", "tok"), ("Accept", "application/json")] }

/-- The parsed URL of `https://api.example.com/`. -/
def uApi : GoURL :=
  GoURL.mk "https".data "api.example.com".data "/".data [] false []

/-- `uApi` joined with the relative path `context`. -/
def uApi2 : GoURL :=
  GoURL.mk "https".data "api.example.com".data "/context".data [] false []

/-! ## Helper lemmas -/

theorem find?_eq_none_of_any_eq_false {α : Type} (p : α → Bool) (l : List α)
    (h : l.any p = false) : l.find? p = none := by
  induction l with
  | nil => rfl
  | cons a as ih =>
    simp only [List.any_cons, Bool.or_eq_false_iff] at h
    simp [List.find?_cons, h.1, ih h.2]

theorem any_eq_false_of_find?_eq_none {α : Type} (p : α → Bool) (l : List α)
    (h : l.find? p = none) : l.any p = false := by
  induction l with
  | nil => rfl
  | cons a as ih =>
    rw [List.find?_cons] at h
    cases hp : p a with
    | true => simp [hp] at h
    | false =>
      simp only [hp] at h
      simp [List.any_cons, hp, ih h]

theorem getContextByNameFetches_fst
    (fetch : ListContextsParams → Outcome ListContextsResponse) (fuel : Nat)
    (params : ListContextsParams) (name : String) :
    (getContextByNameFetches fetch fuel params name).1 = getContextByName fetch fuel params name := by
  induction fuel generalizing params with
  | zero => rfl
  | succ f ih =>
    simp only [getContextByNameFetches, getContextByName]
    cases fetch params with
    | ok resp =>
      simp only []
      cases resp.items.find? (fun ctx => ctx.name == name) with
      | some ctx => rfl
      | none =>
        cases resp.nextPageToken with
        | some t => simpa using ih { params with pageToken := some t }
        | none => rfl
    | err e => rfl
    | panicked => rfl

theorem upToLastSlash_of_ends_slash (p : List Char) (h : p.getLast? = some '/') :
    upToLastSlash p = p := by
  rw [← List.head?_reverse] at h
  unfold upToLastSlash
  cases hrev : p.reverse with
  | nil => rw [hrev] at h; simp at h
  | cons c rest =>
    rw [hrev] at h
    simp only [List.head?_cons, Option.some.injEq] at h
    subst h
    have hd : List.dropWhile (fun c => decide (¬ c = '/')) ('/' :: rest) = '/' :: rest := by
      simp [List.dropWhile_cons]
    rw [hd, ← hrev, List.reverse_reverse]

/-! ## Claims -/

/-- C1: the claim says a non-200 response whose body does not decode to
an `ApiError` with a string message (message absent or null) must
surface a distinct `MalformedErrorResponse` and never crash.  The code
is wrong: `json.Unmarshal` succeeds on such bodies leaving
`Message == nil`, and both `listContexts` and `DeleteContext` then
evaluate `*dest.Message`, a nil-pointer dereference.  This theorem
evaluates both operations at that failing input and shows they panic. -/
theorem c1_nil_message_panics :
    listContexts cEx doReqNilMessage
      { ownerID := none, ownerSlug := none, ownerType := none, pageToken := none } = .panicked
    ∧ DeleteContext cEx doReqNilMessage "ctx-id" = .panicked := by
  constructor <;> rfl

/-- C6: the claim says both request builders fail with `InvalidURL`
(rather than proceeding or crashing) whenever the base server URL or
the joined resource path cannot be parsed.  The code is wrong for
`newDeleteContextRequest`: the error of the second `Parse` (the joined
`context/<id>` path) is assigned but never checked, so a context ID
containing a control byte makes `queryURL` nil and `queryURL.String()`
panics.  For contrast, the checked paths do return the error: an
unparsable base server URL yields the error in both builders. -/
theorem c6_delete_builder_panics_on_bad_join :
    newDeleteContextRequest cEx "\x00" = .panicked
    ∧ newDeleteContextRequest { token := "tok", server := "bad\x00/" } "id1" = .err .invalidURL
    ∧ newListContextsRequest { token := "tok", server := "bad\x00/" } params0 = .err .invalidURL := by
  refine ⟨rfl, rfl, rfl⟩

/-- C9: for every context ID, `DeleteContext` returns plain success on a
200 response, and on a non-200 response whose error body decodes with a
string message it returns the `RemoteError` carrying that message. -/
theorem c9_delete_status_dispatch (c : Client) (doReq : Request → DoResult)
    (contextID : String) (req : Request) (status : Nat) (body : Body)
    (hreq : newDeleteContextRequest c contextID = .ok req)
    (hdo : doReq req = .resp status body) :
    (status = 200 → DeleteContext c doReq contextID = .ok ())
    ∧ (∀ m, status ≠ 200 → body.asError = some { message := some m } →
        DeleteContext c doReq contextID = .err (.remoteError m)) := by
  constructor
  · intro h
    subst h
    simp [DeleteContext, hreq, hdo]
  · intro m h hm
    simp [DeleteContext, hreq, hdo, hm, h]

theorem c9_witness :
    DeleteContext cEx doReq200 "id1" = .ok ()
    ∧ DeleteContext cEx doReq500Boom "id1" = .err (.remoteError "boom") :=
  ⟨(c9_delete_status_dispatch cEx doReq200 "id1" reqDelEx 200
      { asError := none, asPage := none } rfl rfl).1 rfl,
   (c9_delete_status_dispatch cEx doReq500Boom "id1" reqDelEx 500
      { asError := some { message := some "boom" }, asPage := none } rfl rfl).2 "boom"
      (by decide) rfl⟩

/-- C2: collect-all over a finite chain of pages returns every item of
every page, concatenated in server order (page order, then in-page
order) — no deduplication, no reordering; and `Contexts` is exactly
this traversal over the `owner-slug = vcs/org` listing. -/
theorem c2_collect_all_in_order (fetch : ListContextsParams → Outcome ListContextsResponse)
    (params : ListContextsParams) (pages : List ListContextsResponse) (fuel : Nat)
    (hchain : FetchesChain fetch params pages) (hfuel : pages.length ≤ fuel) :
    listAllContexts fetch fuel params = .ok (pages.flatMap ListContextsResponse.items)
    ∧ ∀ (c : Client) (doReq : Request → DoResult) (f : Nat) (org vcs : String),
        Contexts c doReq f org vcs =
          listAllContexts (listContexts c doReq) f
            { ownerID := none, ownerSlug := some (toSlug org vcs), ownerType := none,
              pageToken := none } := by
  refine ⟨?_, fun c doReq f org vcs => rfl⟩
  revert hfuel
  induction hchain generalizing fuel with
  | last params p hfetch hnone =>
    intro hfuel
    cases fuel with
    | zero => simp at hfuel
    | succ f => simp [listAllContexts, hfetch, hnone]
  | cons params p t ps hfetch hsome hrest ih =>
    intro hfuel
    cases fuel with
    | zero => simp at hfuel
    | succ f =>
      have hf : ps.length ≤ f := by
        simp only [List.length_cons] at hfuel
        omega
      simp [listAllContexts, hfetch, hsome, ih f hf]

theorem c2_witness :
    listAllContexts fetchTwoPages 2 params0 = .ok [ctxA, ctxB, ctxC] := by
  have hchain : FetchesChain fetchTwoPages params0 [page1, page2] :=
    FetchesChain.cons params0 page1 "t2" [page2] rfl rfl
      (FetchesChain.last { params0 with pageToken := some "t2" } page2 rfl rfl)
  exact (c2_collect_all_in_order fetchTwoPages params0 [page1, page2] 2 hchain
    (by decide)).1

/-- C4: if the server serves some chained pages and then any fetch in
the chain fails, collect-all returns exactly that error — an
`Outcome.err` carries no items, so no partial accumulator of the
already-fetched pages can be returned. -/
theorem c4_traversal_fails_atomically
    (fetch : ListContextsParams → Outcome ListContextsResponse)
    (params : ListContextsParams) (pages : List ListContextsResponse)
    (e : RClientError) (fuel : Nat)
    (hchain : FetchesChainThenFails fetch params pages e) (hfuel : pages.length < fuel) :
    listAllContexts fetch fuel params = .err e := by
  revert hfuel
  induction hchain generalizing fuel with
  | here params e hfetch =>
    intro hfuel
    cases fuel with
    | zero => simp at hfuel
    | succ f => simp [listAllContexts, hfetch]
  | step params p t ps e hfetch hsome hrest ih =>
    intro hfuel
    cases fuel with
    | zero => simp at hfuel
    | succ f =>
      have hf : ps.length < f := by
        simp only [List.length_cons] at hfuel
        omega
      simp [listAllContexts, hfetch, hsome, ih f hf]

theorem c4_witness :
    listAllContexts (listContexts cEx doReqPageThenBoom) 2 params0 =
      .err (.remoteError "boom") := by
  have hchain : FetchesChainThenFails (listContexts cEx doReqPageThenBoom) params0 [page1]
      (.remoteError "boom") :=
    FetchesChainThenFails.step params0 page1 "t2" [] (.remoteError "boom") (by decide) rfl
      (FetchesChainThenFails.here { params0 with pageToken := some "t2" } (.remoteError "boom")
        (by decide))
  exact c4_traversal_fails_atomically (listContexts cEx doReqPageThenBoom) params0 [page1]
    (.remoteError "boom") 2 hchain (by decide)

theorem getContextByName_of_chain
    (fetch : ListContextsParams → Outcome ListContextsResponse)
    (params : ListContextsParams) (pages : List ListContextsResponse)
    (fuel : Nat) (name : String)
    (hchain : FetchesChain fetch params pages) (hfuel : pages.length ≤ fuel) :
    getContextByName fetch fuel params name =
      (match (pages.flatMap ListContextsResponse.items).find? (fun ctx => ctx.name == name) with
       | some ctx => .ok ctx
       | none => .err (.notFound name)) := by
  revert hfuel
  induction hchain generalizing fuel with
  | last params p hfetch hnone =>
    intro hfuel
    cases fuel with
    | zero => simp at hfuel
    | succ f =>
      cases hfind : p.items.find? (fun ctx => ctx.name == name) with
      | some ctx => simp [getContextByName, hfetch, hfind]
      | none => simp [getContextByName, hfetch, hfind, hnone]
  | cons params p t ps hfetch hsome hrest ih =>
    intro hfuel
    cases fuel with
    | zero => simp at hfuel
    | succ f =>
      have hf : ps.length ≤ f := by
        simp only [List.length_cons] at hfuel
        omega
      cases hfind : p.items.find? (fun ctx => ctx.name == name) with
      | some ctx => simp [getContextByName, hfetch, hfind, List.find?_append]
      | none =>
        simp [getContextByName, hfetch, hfind, hsome, List.find?_append, ih f hf]

theorem getContextByNameFetches_count
    (fetch : ListContextsParams → Outcome ListContextsResponse)
    (params : ListContextsParams) (pages : List ListContextsResponse)
    (fuel : Nat) (name : String)
    (hchain : FetchesChain fetch params pages) (hfuel : pages.length ≤ fuel) :
    (getContextByNameFetches fetch fuel params name).2 =
      min (pages.findIdx (fun p => p.items.any (fun ctx => ctx.name == name)) + 1)
        pages.length := by
  revert hfuel
  induction hchain generalizing fuel with
  | last params p hfetch hnone =>
    intro hfuel
    cases fuel with
    | zero => simp at hfuel
    | succ f =>
      cases hfind : p.items.find? (fun ctx => ctx.name == name) with
      | some ctx =>
        have hany : p.items.any (fun ctx => ctx.name == name) = true :=
          List.any_eq_true.mpr
            ⟨ctx, List.mem_of_find?_eq_some hfind,
             @List.find?_some Context (fun ctx => ctx.name == name) ctx p.items hfind⟩
        simp [getContextByNameFetches, hfetch, hfind, List.findIdx_cons, hany]
      | none =>
        have hany := any_eq_false_of_find?_eq_none _ _ hfind
        simp [getContextByNameFetches, hfetch, hfind, hnone, List.findIdx_cons, hany]
  | cons params p t ps hfetch hsome hrest ih =>
    intro hfuel
    cases fuel with
    | zero => simp at hfuel
    | succ f =>
      have hf : ps.length ≤ f := by
        simp only [List.length_cons] at hfuel
        omega
      cases hfind : p.items.find? (fun ctx => ctx.name == name) with
      | some ctx =>
        have hany : p.items.any (fun ctx => ctx.name == name) = true :=
          List.any_eq_true.mpr
            ⟨ctx, List.mem_of_find?_eq_some hfind,
             @List.find?_some Context (fun ctx => ctx.name == name) ctx p.items hfind⟩
        simp [getContextByNameFetches, hfetch, hfind, List.findIdx_cons, hany]
      | none =>
        have hany := any_eq_false_of_find?_eq_none _ _ hfind
        simp [getContextByNameFetches, hfetch, hfind, hsome, List.findIdx_cons, hany,
          ih f hf]
        omega

/-- C3: find-by-predicate over a finite chain returns the first item
whose name equals the target in (page order, in-page position) order —
the `find?` over the concatenation of all pages — and fails with
`NotFound` carrying the target name when no page matches; the traversal
performs exactly `firstMatchingPage + 1` fetches (so pages after the
first match are never fetched), the instrumented fetch counter computes
the same result as the plain traversal, and `ContextByName` is exactly
this traversal over the `owner-slug = vcs/org` listing. -/
theorem c3_find_first_by_name (fetch : ListContextsParams → Outcome ListContextsResponse)
    (params : ListContextsParams) (pages : List ListContextsResponse)
    (fuel : Nat) (name : String)
    (hchain : FetchesChain fetch params pages) (hfuel : pages.length ≤ fuel) :
    (getContextByName fetch fuel params name =
      (match (pages.flatMap ListContextsResponse.items).find? (fun ctx => ctx.name == name) with
       | some ctx => .ok ctx
       | none => .err (.notFound name)))
    ∧ (getContextByNameFetches fetch fuel params name).2 =
        min (pages.findIdx (fun p => p.items.any (fun ctx => ctx.name == name)) + 1)
          pages.length
    ∧ (getContextByNameFetches fetch fuel params name).1 =
        getContextByName fetch fuel params name
    ∧ ∀ (c : Client) (doReq : Request → DoResult) (f : Nat) (org vcs nm : String),
        ContextByName c doReq f org vcs nm =
          getContextByName (listContexts c doReq) f
            { ownerID := none, ownerSlug := some (toSlug org vcs), ownerType := none,
              pageToken := none } nm :=
  ⟨getContextByName_of_chain fetch params pages fuel name hchain hfuel,
   getContextByNameFetches_count fetch params pages fuel name hchain hfuel,
   getContextByNameFetches_fst fetch fuel params name,
   fun _ _ _ _ _ _ => rfl⟩

theorem c3_witness :
    getContextByName fetchTwoPages 2 params0 "dup" = .ok ctxB
    ∧ (getContextByNameFetches fetchTwoPages 2 params0 "dup").2 = 1 := by
  have hchain : FetchesChain fetchTwoPages params0 [page1, page2] :=
    FetchesChain.cons params0 page1 "t2" [page2] rfl rfl
      (FetchesChain.last { params0 with pageToken := some "t2" } page2 rfl rfl)
  refine ⟨?_, ?_⟩
  · exact (c3_find_first_by_name fetchTwoPages params0 [page1, page2] 2 "dup" hchain
      (by decide)).1
  · exact (c3_find_first_by_name fetchTwoPages params0 [page1, page2] 2 "dup" hchain
      (by decide)).2.1

theorem newHTTPRequest_headers (c : Client) (m u : String) (req : Request)
    (h : newHTTPRequest c m u = .ok req) :
    req.headers = [("circle-token", c.token), ("Accept", "application/json")] := by
  unfold newHTTPRequest at h
  cases hp : urlParse u.data with
  | error e => simp [hp] at h
  | ok v =>
    simp only [hp] at h
    injection h with h
    subst h
    rfl

/-- C7: every request either builder produces carries both the
`circle-token` auth header holding the client's stored token and the
`Accept: application/json` header (both are added by `newHTTPRequest`,
which every builder goes through). -/
theorem c7_every_request_has_auth_and_accept (c : Client) (params : ListContextsParams)
    (contextID : String) :
    (∀ req, newListContextsRequest c params = .ok req →
      ("circle-token", c.token) ∈ req.headers ∧ ("Accept", "application/json") ∈ req.headers)
    ∧ (∀ req, newDeleteContextRequest c contextID = .ok req →
      ("circle-token", c.token) ∈ req.headers ∧ ("Accept", "application/json") ∈ req.headers) := by
  constructor
  · intro req h
    unfold newListContextsRequest at h
    cases hp : urlParse c.server.data with
    | error e => simp [hp] at h
    | ok queryURL =>
      simp only [hp] at h
      cases hp2 : urlParseRef queryURL "context".data with
      | error e => simp [hp2] at h
      | ok u =>
        simp only [hp2] at h
        rw [newHTTPRequest_headers c "GET" _ req h]
        simp
  · intro req h
    unfold newDeleteContextRequest at h
    cases hp : urlParse c.server.data with
    | error e => simp [hp] at h
    | ok queryURL =>
      simp only [hp] at h
      cases hp2 : urlParseRef queryURL ("context/" ++ contextID).data with
      | error e =>
        rw [hp2] at h
        simp at h
      | ok u =>
        rw [hp2] at h
        simp only [] at h
        rw [newHTTPRequest_headers c "DELETE" _ req h]
        simp

theorem c7_witness :
    (("circle-token", cEx.token) ∈ reqListEx.headers
      ∧ ("Accept", "application/json") ∈ reqListEx.headers)
    ∧ (("circle-token", cEx.token) ∈ reqDelEx.headers
      ∧ ("Accept", "application/json") ∈ reqDelEx.headers) :=
  ⟨(c7_every_request_has_auth_and_accept cEx params0 "id1").1 reqListEx rfl,
   (c7_every_request_has_auth_and_accept cEx params0 "id1").2 reqDelEx rfl⟩

/-- C5: the encoded query string contains exactly the present
`ListingParams` fields, each under its fixed parameter name with its
value URL-escaped, joined in the fixed order `owner-id`, `owner-slug`,
`owner-type`, `page-token` (the sort `url.Values.Encode` performs agrees
with the `Add` order here because the four names are alphabetical), and
absent fields are omitted entirely. -/
theorem c5_query_exact_present_fields (params : ListContextsParams) :
    valuesEncode (listContextsURLValues params) =
      "&".intercalate
        ((match params.ownerID with
          | some v => ["owner-id=" ++ queryEscape v]
          | none => []) ++
         (match params.ownerSlug with
          | some v => ["owner-slug=" ++ queryEscape v]
          | none => []) ++
         (match params.ownerType with
          | some v => ["owner-type=" ++ queryEscape v]
          | none => []) ++
         (match params.pageToken with
          | some v => ["page-token=" ++ queryEscape v]
          | none => [])) := by
  obtain ⟨oid, oslug, otype, ptok⟩ := params
  have e1 : queryEscape "owner-id" = "owner-id" := by decide
  have e2 : queryEscape "owner-slug" = "owner-slug" := by decide
  have e3 : queryEscape "owner-type" = "owner-type" := by decide
  have e4 : queryEscape "page-token" = "page-token" := by decide
  have k1 : keyLE "owner-id" "owner-slug" = true := by decide
  have k2 : keyLE "owner-id" "owner-type" = true := by decide
  have k3 : keyLE "owner-id" "page-token" = true := by decide
  have k4 : keyLE "owner-slug" "owner-type" = true := by decide
  have k5 : keyLE "owner-slug" "page-token" = true := by decide
  have k6 : keyLE "owner-type" "page-token" = true := by decide
  have a1 : ∀ s : String, "owner-id" ++ ("=" ++ s) = "owner-id=" ++ s := fun s => by
    rw [show ("owner-id=" : String) = "owner-id" ++ "=" from rfl, String.append_assoc]
  have a2 : ∀ s : String, "owner-slug" ++ ("=" ++ s) = "owner-slug=" ++ s := fun s => by
    rw [show ("owner-slug=" : String) = "owner-slug" ++ "=" from rfl, String.append_assoc]
  have a3 : ∀ s : String, "owner-type" ++ ("=" ++ s) = "owner-type=" ++ s := fun s => by
    rw [show ("owner-type=" : String) = "owner-type" ++ "=" from rfl, String.append_assoc]
  have a4 : ∀ s : String, "page-token" ++ ("=" ++ s) = "page-token=" ++ s := fun s => by
    rw [show ("page-token=" : String) = "page-token" ++ "=" from rfl, String.append_assoc]
  cases oid <;> cases oslug <;> cases otype <;> cases ptok <;>
    simp [listContextsURLValues, valuesEncode, sortByKey, insertByKey,
      k1, k2, k3, k4, k5, k6, e1, e2, e3, e4, a1, a2, a3, a4]

/-- C10: client construction is total and does no URL validation —
`NewClient` is a plain function returning a client holding the given
token and the normalized server string for every input; an unparsable
server URL (one Go's `url.Parse` rejects, e.g. containing a control
byte) is detected only when an operation builds its request, and
surfaces there as that operation's error. -/
theorem c10_construction_is_total (server token : String) :
    (NewClient server token).token = token
    ∧ (NewClient server token).server =
        (if server.data.getLast? = some '/' then server else server ++ "/")
    ∧ (containsCTL server.data = true →
        (∀ params, newListContextsRequest (NewClient server token) params = .err .invalidURL)
        ∧ (∀ contextID, newDeleteContextRequest (NewClient server token) contextID =
            .err .invalidURL)
        ∧ (∀ (doReq : Request → DoResult) params,
            listContexts (NewClient server token) doReq params = .err .invalidURL)
        ∧ (∀ (doReq : Request → DoResult) contextID,
            DeleteContext (NewClient server token) doReq contextID = .err .invalidURL)) := by
  refine ⟨rfl, rfl, ?_⟩
  intro hctl
  have hsrv : containsCTL (NewClient server token).server.data = true := by
    show containsCTL
      ((if server.data.getLast? = some '/' then server else server ++ "/") : String).data = true
    split
    · exact hctl
    · rw [String.data_append]
      unfold containsCTL at hctl ⊢
      rw [List.any_append, hctl]
      rfl
  have hparse : urlParse (NewClient server token).server.data = .error .controlByte := by
    unfold urlParse
    rw [hsrv]
    rfl
  refine ⟨fun params => ?_, fun contextID => ?_, fun doReq params => ?_,
    fun doReq contextID => ?_⟩
  · unfold newListContextsRequest
    rw [hparse]
  · unfold newDeleteContextRequest
    rw [hparse]
  · unfold listContexts newListContextsRequest
    rw [hparse]
  · unfold DeleteContext newDeleteContextRequest
    rw [hparse]

theorem c10_witness :
    newListContextsRequest (NewClient "\x01host" "tok") params0 = .err .invalidURL
    ∧ DeleteContext (NewClient "\x01host" "tok") doReq200 "id1" = .err .invalidURL :=
  ⟨((c10_construction_is_total "\x01host" "tok").2.2 (by decide)).1 params0,
   ((c10_construction_is_total "\x01host" "tok").2.2 (by decide)).2.2.2 doReq200 "id1"⟩

/-- C8: the server string stored by `NewClient` always ends with `/`
(the slash is appended exactly when missing, at construction), and
joining such a base with the relative resource path `context` yields
the base URL followed by the path.  The join conjunct holds on the
region where the `net/url` model is faithful: the stored server parses
to a URL that round-trips to the same string, with an authority, a
nonempty dot-free path, and no query or fragment. -/
theorem c8_base_url_normalized_join (server token : String) :
    (NewClient server token).server =
        (if server.data.getLast? = some '/' then server else server ++ "/")
    ∧ (NewClient server token).server.data.getLast? = some '/'
    ∧ (∀ u u2 : GoURL,
        urlParse (NewClient server token).server.data = .ok u →
        urlToString u = (NewClient server token).server.data →
        u.host ≠ [] → u.path ≠ [] → dotFreePath u.path = true →
        u.query = [] → u.forceQuery = false → u.fragment = [] →
        urlParseRef u "context".data = .ok u2 →
        urlToString u2 = (NewClient server token).server.data ++ "context".data) := by
  have hnorm : (NewClient server token).server =
      (if server.data.getLast? = some '/' then server else server ++ "/") := rfl
  have hslash : (NewClient server token).server.data.getLast? = some '/' := by
    rw [hnorm]
    split
    · assumption
    · rw [String.data_append]
      exact List.getLast?_concat _
  refine ⟨hnorm, hslash, ?_⟩
  intro u u2 hparse hround hhost hpath hdot hq hfq hfrag href
  have hcd : "context".data = 'c' :: 'o' :: 'n' :: 't' :: 'e' :: 'x' :: 't' :: [] := rfl
  have hctx : urlParse "context".data =
      .ok (GoURL.mk [] [] ('c' :: 'o' :: 'n' :: 't' :: 'e' :: 'x' :: 't' :: []) [] false []) :=
    rfl
  rw [urlParseRef, hctx] at href
  simp only [] at href
  injection href with href
  subst href
  have hform : urlToString u =
      (if u.scheme = [] then [] else u.scheme ++ [':']) ++
      ((if u.host = [] then [] else '/' :: '/' :: u.host) ++ u.path) := by
    unfold urlToString
    rw [hq, hfq, hfrag]
    simp
  have hpl : u.path.getLast? = some '/' := by
    have h0 : (urlToString u).getLast? = some '/' := by
      rw [hround]
      exact hslash
    rw [hform, List.getLast?_append, List.getLast?_append] at h0
    cases hl : u.path.getLast? with
    | none => exact absurd (List.getLast?_eq_none_iff.mp hl) hpath
    | some x =>
      rw [hl] at h0
      simp only [Option.or, Option.some.injEq] at h0
      exact congrArg some h0
  have hup : upToLastSlash u.path = u.path := upToLastSlash_of_ends_slash _ hpl
  have hres : resolveReference u
      (GoURL.mk [] [] ('c' :: 'o' :: 'n' :: 't' :: 'e' :: 'x' :: 't' :: []) [] false []) =
      GoURL.mk u.scheme u.host (u.path ++ ('c' :: 'o' :: 'n' :: 't' :: 'e' :: 'x' :: 't' :: []))
        [] false [] := by
    unfold resolveReference
    simp [resolvePathGo, hup]
  rw [hres, ← hround, hcd]
  unfold urlToString
  simp [hq, hfq, hfrag, List.append_assoc]

theorem c8_witness :
    urlToString uApi2 = (NewClient "https://api.example.com" "t").server.data ++ "context".data :=
  (c8_base_url_normalized_join "https://api.example.com" "t").2.2 uApi uApi2 rfl
    (by decide) (by decide) (by decide) (by decide) (by decide) (by decide) (by decide)
    rfl

end RestClient
